import Mathlib

/-!
Verification development for the recipe-agent pantry application
(`app_recipes.py`, `gen_recipes_cli.py`).

Modelling conventions for the shallow embedding:
* Python floats are modelled as exact rationals (`ℚ`); float literals such as
  `0.25`, `1.2`, `0.15`, `0.4` are taken at their decimal values.
* Python `datetime` instants are modelled as rational seconds counted from the
  proleptic Gregorian epoch 0001-01-01 (day `n` starts at second `n * 86400`,
  with `toOrdinal 1 1 1 = 1`, matching `date.toordinal`). The current instant
  `datetime.now()` is passed in as an explicit parameter `now`.
* Python `str` is modelled by `String`; `str.lower` / `str.strip` are modelled
  over the character list (ASCII case folding, ASCII whitespace).
* Database rows are modelled as a `List Ingredient` kept in table order; the
  `UNIQUE KEY` on `name` appears as a `Nodup` hypothesis where needed.
* Fallible operations return `Option`: `apply_usage` returns `none` exactly
  when the underlying `one_or_none` query would raise (two rows sharing a
  name, impossible under the unique-key constraint).
-/

/-- A row of the `ingredients` table, as returned by `list_ingredients`
(`app_recipes.py` DDL lines 38-51).  `qty` is a MySQL `DOUBLE`, modelled as a
rational; `category`, `diet_type` and `expires_on` are nullable in the code
paths that read them (`dict.get` can yield `None`), hence `Option`. -/
structure Ingredient where
  name : String
  qty : ℚ
  unit : String
  category : Option String
  diet_type : Option String
  expires_on : Option String
  deriving Repr, DecidableEq

/-- An element of the list built by `rank_ingredients`: the input dict
augmented with the two derived keys. -/
structure RankedItem where
  item : Ingredient
  _days_left : ℚ
  _priority : ℚ
  deriving Repr, DecidableEq

/-- ASCII lower-casing of a string, modelling `str.lower` on the ASCII
range (all strings compared by the program are ASCII). -/
def lowerStr (s : String) : String :=
  ⟨s.data.map Char.toLower⟩

/-- Python `str.strip()`: drop whitespace from both ends. -/
def pyStrip (s : String) : String :=
  ⟨((s.data.dropWhile Char.isWhitespace).reverse.dropWhile Char.isWhitespace).reverse⟩

/-- Gregorian leap-year test. -/
def isLeap (y : ℕ) : Bool :=
  (y % 4 == 0 && y % 100 != 0) || (y % 400 == 0)

/-- Number of days in month `m` of year `y`. -/
def daysInMonth (y m : ℕ) : ℕ :=
  if m = 2 then (if isLeap y then 29 else 28)
  else if m = 4 ∨ m = 6 ∨ m = 9 ∨ m = 11 then 30
  else 31

/-- Days in year `y` strictly before month `m`. -/
def daysBeforeMonth (y m : ℕ) : ℕ :=
  ((List.range (m - 1)).map (fun i => daysInMonth y (i + 1))).sum

/-- Proleptic Gregorian ordinal of date `y-m-d` (0001-01-01 is day 1),
matching `datetime.date.toordinal`. -/
def toOrdinal (y m d : ℕ) : ℕ :=
  365 * (y - 1) + (y - 1) / 4 - (y - 1) / 100 + (y - 1) / 400 + daysBeforeMonth y m + d

/-- Split a character list on the dash character, modelling
`str.split("-")` as performed by the `%Y-%m-%d` format match. -/
def splitDash : List Char → List (List Char)
  | [] => [[]]
  | c :: cs =>
    if c = '-' then [] :: splitDash cs
    else
      match splitDash cs with
      | [] => [[c]]
      | g :: gs => (c :: g) :: gs

/-- Numeric value of a digit string. -/
def digitsToNat (cs : List Char) : ℕ :=
  cs.foldl (fun a c => a * 10 + (c.toNat - 48)) 0

/-- Models `datetime.strptime(s, "%Y-%m-%d")`, returning the ordinal of the
parsed date, or `none` when CPython would raise `ValueError`: the year field
must be exactly four digits, month and day one or two digits, the whole
string must be consumed, and the date must be a valid Gregorian date with
year at least 1 (CPython `MINYEAR`). -/
def parseDate (s : String) : Option ℕ :=
  match splitDash s.data with
  | [ys, ms, ds] =>
    let y := digitsToNat ys
    let m := digitsToNat ms
    let d := digitsToNat ds
    if ys.all Char.isDigit && (ys.length == 4)
        && ms.all Char.isDigit && (1 ≤ ms.length) && (ms.length ≤ 2)
        && ds.all Char.isDigit && (1 ≤ ds.length) && (ds.length ≤ 2)
        && (1 ≤ y) && (1 ≤ m) && (m ≤ 12)
        && (1 ≤ d) && (d ≤ daysInMonth y m)
    then some (toOrdinal y m d)
    else none
  | _ => none

/-- `days_left` from `app_recipes.py` lines 191-198 (identical in
`gen_recipes_cli.py` lines 20-27).  `now` is the instant returned by
`datetime.now()`, in seconds.  A missing or empty date string (falsy in
Python) and a string `strptime` rejects both yield the sentinel `9999.0`;
otherwise the result is `(dt - now).total_seconds() / 86400` where `dt` is
midnight of the parsed date. -/
def days_left (now : ℚ) (iso_date : Option String) : ℚ :=
  match iso_date with
  | none => 9999
  | some s =>
    if s = "" then 9999
    else
      match parseDate s with
      | none => 9999
      | some d => ((d : ℚ) * 86400 - now) / 86400

/-- The perishable category classes of `rank_ingredients` line 214. -/
def perishables : List String := ["dairy", "protein", "veg", "vegetable", "fruit"]

/-- `(it.get "category" or "").lower()` as in line 213. -/
def category_of (it : Ingredient) : String :=
  lowerStr (it.category.getD "")

/-- `(it.get "diet_type" or "unknown").lower()` as in line 218; both a
missing key and an empty string are falsy and fall back to `"unknown"`. -/
def diet_of (it : Ingredient) : String :=
  lowerStr (match it.diet_type with
    | none => "unknown"
    | some s => if s = "" then "unknown" else s)

/-- Loop body of `rank_ingredients` (`app_recipes.py` lines 208-228): the
priority of one item under the given flags, together with the two derived
fields. -/
def rank_one (now : ℚ) (selected_diet : String)
    (exclude_non_veg exclude_eggs exclude_dairy : Bool) (it : Ingredient) :
    RankedItem :=
  let dleft := days_left now it.expires_on
  let prio0 := 1 / max dleft (25/100)
  let cat := category_of it
  let prio1 := if cat ∈ perishables then prio0 * (12/10) else prio0
  let it_diet := diet_of it
  let prio2 := if exclude_non_veg ∧ it_diet = "non-veg" then prio1 * (15/100) else prio1
  let prio3 := if exclude_eggs ∧ it_diet = "eggs-ok" then prio2 * (4/10) else prio2
  let prio4 := if exclude_dairy ∧ cat = "dairy" then prio3 * (4/10) else prio3
  let prio5 := if selected_diet = "vegan" ∧ cat = "dairy" then prio4 * (4/10) else prio4
  { item := it, _days_left := dleft, _priority := prio5 }

/-- The comparison used by `ranked.sort(key=lambda x: (-x["_priority"], x["name"]))`:
the nonstrict lexicographic order on the key `(-priority, name)`. -/
def rank_key_le (a b : RankedItem) : Bool :=
  decide (b._priority < a._priority) ||
    (decide (a._priority = b._priority) && decide (a.item.name ≤ b.item.name))

/-- `rank_ingredients` from `app_recipes.py` lines 200-231: score every item,
then sort by descending priority with ties broken by ascending name
(`list.sort` is a stable sort; any stable sort over the same total preorder
computes the same list, so `mergeSort` models it exactly). -/
def rank_ingredients (now : ℚ) (items : List Ingredient) (selected_diet : String)
    (exclude_non_veg exclude_eggs exclude_dairy : Bool) : List RankedItem :=
  (items.map (rank_one now selected_diet exclude_non_veg exclude_eggs exclude_dairy)).mergeSort
    rank_key_le

/-- Loop body of the CLI `rank_ingredients` (`gen_recipes_cli.py` lines
31-37): only the perishable boost, no diet handling. -/
def cli_rank_one (now : ℚ) (it : Ingredient) : RankedItem :=
  let dleft := days_left now it.expires_on
  let prio0 := 1 / max dleft (25/100)
  let cat := category_of it
  let prio1 := if cat ∈ perishables then prio0 * (12/10) else prio0
  { item := it, _days_left := dleft, _priority := prio1 }

/-- The identical sort comparison of `gen_recipes_cli.py` line 38. -/
def cli_rank_key_le (a b : RankedItem) : Bool :=
  decide (b._priority < a._priority) ||
    (decide (a._priority = b._priority) && decide (a.item.name ≤ b.item.name))

/-- `rank_ingredients` from `gen_recipes_cli.py` lines 29-39. -/
def cli_rank_ingredients (now : ℚ) (items : List Ingredient) : List RankedItem :=
  (items.map (cli_rank_one now)).mergeSort cli_rank_key_le

/-! ### Ranking helper lemmas -/

/-- Membership in the ranked output is exactly being the score of an input item. -/
theorem mem_rank_iff {now : ℚ} {items : List Ingredient} {d : String}
    {e1 e2 e3 : Bool} {r : RankedItem} :
    r ∈ rank_ingredients now items d e1 e2 e3 ↔
      ∃ it ∈ items, rank_one now d e1 e2 e3 it = r := by
  simp [rank_ingredients, List.mem_mergeSort, List.mem_map]

theorem rank_one_item (now : ℚ) (d : String) (e1 e2 e3 : Bool) (it : Ingredient) :
    (rank_one now d e1 e2 e3 it).item = it := rfl

theorem rank_one_days (now : ℚ) (d : String) (e1 e2 e3 : Bool) (it : Ingredient) :
    (rank_one now d e1 e2 e3 it)._days_left = days_left now it.expires_on := rfl

/-- Closed form of the priority computed by the loop body: one multiplicative
factor per rule, the two dairy penalties (dairy excluded; vegan selected)
being separate factors. -/
theorem rank_one_priority (now : ℚ) (d : String) (e1 e2 e3 : Bool) (it : Ingredient) :
    (rank_one now d e1 e2 e3 it)._priority =
      (1 / max (days_left now it.expires_on) (25/100))
      * (if category_of it ∈ perishables then (12/10 : ℚ) else 1)
      * (if e1 ∧ diet_of it = "non-veg" then (15/100 : ℚ) else 1)
      * (if e2 ∧ diet_of it = "eggs-ok" then (4/10 : ℚ) else 1)
      * (if e3 ∧ category_of it = "dairy" then (4/10 : ℚ) else 1)
      * (if d = "vegan" ∧ category_of it = "dairy" then (4/10 : ℚ) else 1) := by
  by_cases h1 : category_of it ∈ perishables <;>
    by_cases h2 : e1 = true ∧ diet_of it = "non-veg" <;>
      by_cases h3 : e2 = true ∧ diet_of it = "eggs-ok" <;>
        by_cases h4 : e3 = true ∧ category_of it = "dairy" <;>
          by_cases h5 : d = "vegan" ∧ category_of it = "dairy" <;>
            simp [rank_one, h1, h2, h3, h4, h5]

theorem rank_key_le_total (a b : RankedItem) : rank_key_le a b || rank_key_le b a := by
  simp only [rank_key_le, Bool.or_eq_true, Bool.and_eq_true, decide_eq_true_eq]
  rcases lt_trichotomy a._priority b._priority with h | h | h
  · exact Or.inr (Or.inl h)
  · rcases le_total a.item.name b.item.name with hn | hn
    · exact Or.inl (Or.inr ⟨h, hn⟩)
    · exact Or.inr (Or.inr ⟨h.symm, hn⟩)
  · exact Or.inl (Or.inl h)

theorem rank_key_le_trans (a b c : RankedItem) :
    rank_key_le a b → rank_key_le b c → rank_key_le a c := by
  simp only [rank_key_le, Bool.or_eq_true, Bool.and_eq_true, decide_eq_true_eq]
  rintro (hab | ⟨hab, na⟩) (hbc | ⟨hbc, nb⟩)
  · exact Or.inl (lt_trans hbc hab)
  · exact Or.inl (hbc ▸ hab)
  · exact Or.inl (hab ▸ hbc)
  · exact Or.inr ⟨hab.trans hbc, na.trans nb⟩

/-! ### Claim C1 -/

/-- Concrete dairy item used in counterexamples and witnesses. -/
def milkI : Ingredient :=
  { name := "milk", qty := 1, unit := "l", category := some "dairy",
    diet_type := some "veg", expires_on := none }

/-- C1 is FALSE as stated: the claim describes a single ×0.4 penalty applied
when (dairy excluded ∨ vegan selected) ∧ category = dairy, but the code
applies a ×0.4 factor for each of the two conditions separately, so a dairy
item under exclude_dairy plus the vegan diet is scaled by 0.16, not 0.4.
This theorem refutes the claim formula at such an input. -/
theorem c1_counterexample :
    ¬ (∀ r ∈ rank_ingredients 0 [milkI] "vegan" false false true,
        r._priority =
          (1 / max r._days_left (25/100))
          * (if category_of r.item ∈ perishables then (12/10 : ℚ) else 1)
          * (if false ∧ diet_of r.item = "non-veg" then (15/100 : ℚ) else 1)
          * (if false ∧ diet_of r.item = "eggs-ok" then (4/10 : ℚ) else 1)
          * (if (true ∨ ("vegan" : String) = "vegan") ∧ category_of r.item = "dairy"
              then (4/10 : ℚ) else 1)) := by
  intro h
  have hm : rank_one 0 "vegan" false false true milkI ∈
      rank_ingredients 0 [milkI] "vegan" false false true :=
    mem_rank_iff.mpr ⟨milkI, List.mem_singleton_self _, rfl⟩
  have h2 := h _ hm
  have hcat : category_of milkI = "dairy" := by decide
  have hdiet : diet_of milkI = "veg" := by decide
  have hdl : (rank_one 0 "vegan" false false true milkI)._days_left = (9999 : ℚ) := rfl
  rw [rank_one_priority, hdl, rank_one_item, hcat, hdiet] at h2
  have hdlv : days_left 0 milkI.expires_on = (9999 : ℚ) := rfl
  rw [hdlv] at h2
  have hmax : max (9999 : ℚ) (25/100) = 9999 :=
    max_eq_left (by norm_num)
  rw [hmax] at h2
  simp only [perishables, List.mem_cons, List.mem_singleton] at h2
  norm_num at h2

/-- C1 (amended): each ranked item receives priority
`1/max(days_left, 0.25)` times one factor per rule — ×1.2 for perishable
categories, ×0.15 for excluded non-veg, ×0.4 for excluded eggs-ok, and a
separate ×0.4 factor for each of the two dairy conditions (dairy excluded;
vegan diet selected), which therefore compound to ×0.16 when both hold. -/
theorem c1_priority_formula (now : ℚ) (items : List Ingredient) (d : String)
    (e1 e2 e3 : Bool) (r : RankedItem)
    (hr : r ∈ rank_ingredients now items d e1 e2 e3) :
    r._days_left = days_left now r.item.expires_on ∧
    r._priority =
      (1 / max (days_left now r.item.expires_on) (25/100))
      * (if category_of r.item ∈ perishables then (12/10 : ℚ) else 1)
      * (if e1 ∧ diet_of r.item = "non-veg" then (15/100 : ℚ) else 1)
      * (if e2 ∧ diet_of r.item = "eggs-ok" then (4/10 : ℚ) else 1)
      * (if e3 ∧ category_of r.item = "dairy" then (4/10 : ℚ) else 1)
      * (if d = "vegan" ∧ category_of r.item = "dairy" then (4/10 : ℚ) else 1) := by
  obtain ⟨it, -, rfl⟩ := mem_rank_iff.mp hr
  exact ⟨rank_one_days now d e1 e2 e3 it, rank_one_priority now d e1 e2 e3 it⟩

/-- Witness for C1: the amended formula applied to a concrete run. -/
theorem c1_priority_formula_witness :
    (rank_one 0 "vegan" false false true milkI)._days_left =
      days_left 0 milkI.expires_on ∧
    (rank_one 0 "vegan" false false true milkI)._priority =
      (1 / max (days_left 0 milkI.expires_on) (25/100))
      * (if category_of milkI ∈ perishables then (12/10 : ℚ) else 1)
      * (if false ∧ diet_of milkI = "non-veg" then (15/100 : ℚ) else 1)
      * (if false ∧ diet_of milkI = "eggs-ok" then (4/10 : ℚ) else 1)
      * (if true ∧ category_of milkI = "dairy" then (4/10 : ℚ) else 1)
      * (if "vegan" = "vegan" ∧ category_of milkI = "dairy" then (4/10 : ℚ) else 1) :=
  c1_priority_formula 0 [milkI] "vegan" false false true
    (rank_one 0 "vegan" false false true milkI)
    (mem_rank_iff.mpr ⟨milkI, List.mem_singleton_self _, rfl⟩)

/-! ### Claim C3 -/

theorem rank_key_le_eq_true_iff (a b : RankedItem) :
    rank_key_le a b = true ↔
      (b._priority < a._priority ∨
        (a._priority = b._priority ∧ a.item.name ≤ b.item.name)) := by
  simp [rank_key_le]

/-- C3: rank_ingredients returns a permutation of its input (each item kept,
with original fields unchanged inside the `item` projection and only the two
derived fields added), sorted descending by priority with ties broken by
ascending name, and a date string the parser rejects degrades to the
sentinel rather than failing (the function is total). -/
theorem c3_rank_permutation_sorted (now : ℚ) (items : List Ingredient)
    (d : String) (e1 e2 e3 : Bool) :
    ((rank_ingredients now items d e1 e2 e3).map RankedItem.item).Perm items ∧
    (rank_ingredients now items d e1 e2 e3).Pairwise
      (fun a b => b._priority < a._priority ∨
        (a._priority = b._priority ∧ a.item.name ≤ b.item.name)) ∧
    (∀ r ∈ rank_ingredients now items d e1 e2 e3,
      r._days_left = days_left now r.item.expires_on) ∧
    (∀ s : String, parseDate s = none → days_left now (some s) = 9999) := by
  refine ⟨?_, ?_, ?_, ?_⟩
  · have hp := (List.mergeSort_perm
      (items.map (rank_one now d e1 e2 e3)) rank_key_le).map RankedItem.item
    refine hp.trans ?_
    rw [List.map_map]
    have : ∀ it ∈ items, (RankedItem.item ∘ rank_one now d e1 e2 e3) it = id it :=
      fun it _ => rfl
    rw [List.map_congr_left this, List.map_id]
  · have hs := @List.sorted_mergeSort RankedItem rank_key_le
      (fun a b c hab hbc => rank_key_le_trans a b c hab hbc)
      (fun a b => rank_key_le_total a b)
      (items.map (rank_one now d e1 e2 e3))
    exact hs.imp (fun hab => (rank_key_le_eq_true_iff _ _).mp hab)
  · intro r hr
    obtain ⟨it, -, rfl⟩ := mem_rank_iff.mp hr
    exact rank_one_days now d e1 e2 e3 it
  · intro s hs
    by_cases he : s = ""
    · subst he; rfl
    · simp [days_left, he, hs]

/-- Witness for C3 at a concrete run: a two-item pantry is permuted, and a
malformed date degrades to the sentinel. -/
theorem c3_rank_permutation_sorted_witness :
    ((rank_ingredients 0 [milkI,
        { name := "rice", qty := 2, unit := "kg", category := some "grain",
          diet_type := some "veg", expires_on := some "not-a-date" }]
        "veg" true false false).map RankedItem.item).Perm
      [milkI,
        { name := "rice", qty := 2, unit := "kg", category := some "grain",
          diet_type := some "veg", expires_on := some "not-a-date" }] ∧
    days_left 0 (some "not-a-date") = 9999 :=
  ⟨(c3_rank_permutation_sorted 0 _ "veg" true false false).1,
    (c3_rank_permutation_sorted 0 [] "veg" true false false).2.2.2
      "not-a-date" (by decide)⟩

/-! ### Claim C8 -/

/-- If the expiry date parses and its midnight is not after `now`
(the item expires today or expired earlier), then `days_left` is nonpositive. -/
theorem days_left_nonpos {now : ℚ} {s : String} {d : ℕ}
    (hp : parseDate s = some d) (hle : (d : ℚ) * 86400 ≤ now) :
    days_left now (some s) ≤ 0 := by
  have hne : s ≠ "" := by
    intro he
    rw [he] at hp
    exact Option.noConfusion ((by decide : parseDate "" = none) ▸ hp)
  simp only [days_left, hne, if_false, hp]
  rw [div_nonpos_iff]
  right
  exact ⟨by linarith, by norm_num⟩

/-- The base priority is capped at 4 for every item. -/
theorem base_priority_le_four (q : ℚ) : 1 / max q (25/100) ≤ 4 := by
  have h1 : (25/100 : ℚ) ≤ max q (25/100) := le_max_right _ _
  have h2 : (0 : ℚ) < 25/100 := by norm_num
  calc 1 / max q (25/100) ≤ 1 / (25/100) := one_div_le_one_div_of_le h2 h1
    _ = 4 := by norm_num

/-- C8 is FALSE as stated: at `exNow` both items below are already expired
(expiry 2024-01-01, now = midnight of 2024-01-02), yet they receive
different priorities, because the category multiplier still applies after
the common base of 4 (the fruit is boosted to 4.8). -/
def appleI : Ingredient :=
  { name := "apple", qty := 1, unit := "pcs", category := some "fruit",
    diet_type := some "veg", expires_on := some "2024-01-01" }

def boxI : Ingredient :=
  { name := "box", qty := 1, unit := "pcs", category := none,
    diet_type := some "veg", expires_on := some "2024-01-01" }

def exNow : ℚ := 738887 * 86400

theorem days_left_jan1 : days_left exNow (some "2024-01-01") = -1 := by
  have hp : parseDate "2024-01-01" = some 738886 := by decide
  have hne : ("2024-01-01" : String) ≠ "" := by decide
  simp only [days_left, hne, if_false, hp, exNow]
  norm_num

theorem c8_counterexample :
    ¬ (∀ a ∈ rank_ingredients exNow [appleI, boxI] "veg" false false false,
       ∀ b ∈ rank_ingredients exNow [appleI, boxI] "veg" false false false,
        (∃ s da, a.item.expires_on = some s ∧ parseDate s = some da ∧
          (da : ℚ) * 86400 ≤ exNow) →
        (∃ s db, b.item.expires_on = some s ∧ parseDate s = some db ∧
          (db : ℚ) * 86400 ≤ exNow) →
        a._priority = b._priority) := by
  intro h
  have hma : rank_one exNow "veg" false false false appleI ∈
      rank_ingredients exNow [appleI, boxI] "veg" false false false :=
    mem_rank_iff.mpr ⟨appleI, by simp, rfl⟩
  have hmb : rank_one exNow "veg" false false false boxI ∈
      rank_ingredients exNow [appleI, boxI] "veg" false false false :=
    mem_rank_iff.mpr ⟨boxI, by simp, rfl⟩
  have hexp : (738886 : ℚ) * 86400 ≤ exNow := by norm_num [exNow]
  have h2 := h _ hma _ hmb
    ⟨"2024-01-01", 738886, rfl, by decide, hexp⟩
    ⟨"2024-01-01", 738886, rfl, by decide, hexp⟩
  rw [rank_one_priority, rank_one_priority] at h2
  have hca : category_of appleI = "fruit" := by decide
  have hcb : category_of boxI = "" := by decide
  have hda : diet_of appleI = "veg" := by decide
  have hdb : diet_of boxI = "veg" := by decide
  have hea : appleI.expires_on = some "2024-01-01" := rfl
  have heb : boxI.expires_on = some "2024-01-01" := rfl
  rw [hca, hcb, hda, hdb, hea, heb, days_left_jan1] at h2
  have hmax : max (-1 : ℚ) (25/100) = 25/100 := max_eq_right (by norm_num)
  rw [hmax] at h2
  simp only [perishables, List.mem_cons, List.mem_singleton] at h2
  have hx1 : ¬ (("veg" : String) = "vegan") := by decide
  have hx2 : ¬ (("" : String) = "dairy") := by decide
  have hx3 : ¬ (("" : String) = "protein") := by decide
  have hx4 : ¬ (("" : String) = "veg") := by decide
  have hx5 : ¬ (("" : String) = "vegetable") := by decide
  have hx6 : ¬ (("" : String) = "fruit") := by decide
  have hx7 : ¬ (("fruit" : String) = "dairy") := by decide
  simp only [hx1, hx2, hx3, hx4, hx5, hx6, hx7, false_and, and_false, if_false,
    false_or, or_false, if_true, ite_false] at h2
  norm_num at h2

/-- C8 (amended): any two items whose expiry date parses to the current date
or earlier receive the same BASE priority `1/max(days_left, 0.25) = 4`, and
that base is maximal — no item has a larger base.  (The final priorities may
still differ through the category and diet multipliers, which is what the
counterexample exhibits.) -/
theorem c8_expired_base_priority (now : ℚ) (items : List Ingredient)
    (d : String) (e1 e2 e3 : Bool) (a b : RankedItem)
    (ha : a ∈ rank_ingredients now items d e1 e2 e3)
    (hb : b ∈ rank_ingredients now items d e1 e2 e3)
    (hae : ∃ s da, a.item.expires_on = some s ∧ parseDate s = some da ∧
      (da : ℚ) * 86400 ≤ now)
    (hbe : ∃ s db, b.item.expires_on = some s ∧ parseDate s = some db ∧
      (db : ℚ) * 86400 ≤ now) :
    1 / max a._days_left (25/100) = 4 ∧
    1 / max b._days_left (25/100) = 4 ∧
    (∀ c ∈ rank_ingredients now items d e1 e2 e3,
      1 / max c._days_left (25/100) ≤ 4) := by
  have key : ∀ r ∈ rank_ingredients now items d e1 e2 e3,
      (∃ s dr, r.item.expires_on = some s ∧ parseDate s = some dr ∧
        (dr : ℚ) * 86400 ≤ now) →
      1 / max r._days_left (25/100) = 4 := by
    intro r hr hex
    obtain ⟨s, dr, hexp, hp, hle⟩ := hex
    obtain ⟨it, -, rfl⟩ := mem_rank_iff.mp hr
    rw [rank_one_item] at hexp
    rw [rank_one_days, hexp]
    have hnp := days_left_nonpos hp hle
    rw [max_eq_right (le_trans hnp (by norm_num))]
    norm_num
  exact ⟨key a ha hae, key b hb hbe,
    fun c _ => base_priority_le_four c._days_left⟩

/-! ### Snapshot formatting -/

/-- Floor of a rational as an integer (`Int.fdiv` is floor division). -/
def ratFloor (q : ℚ) : ℤ := q.num.fdiv (q.den : ℤ)

/-- Bankers rounding to an integer, modelling Python `round` on the exact
rational value (CPython rounds the binary double; on the decimal values of
this model the two agree except for binary-representation artifacts). -/
def roundHalfEven (q : ℚ) : ℤ :=
  let f := ratFloor q
  let r := q - (f : ℚ)
  if r < 1/2 then f
  else if 1/2 < r then f + 1
  else if f % 2 = 0 then f else f + 1

/-- Python `round(x, k)`. -/
def py_round (q : ℚ) (k : ℕ) : ℚ :=
  (roundHalfEven (q * (10 : ℚ) ^ k) : ℚ) / (10 : ℚ) ^ k

/-- Decimal expansion of a fractional part (`0 ≤ r < 1`), most significant
digit first, stopping at an exact zero remainder or after `fuel` digits. -/
def fracDigits : ℕ → ℚ → List ℕ
  | 0, _ => []
  | fuel + 1, r =>
    if r = 0 then []
    else
      let r10 := r * 10
      (ratFloor r10).toNat :: fracDigits fuel (r10 - (ratFloor r10 : ℚ))

def digitChar (d : ℕ) : Char := Char.ofNat (48 + d)

/-- Models `str(x)` for the float values interpolated into the snapshot
f-string: sign, integer part, a dot, then the fractional digits with at
least one digit (so `str(2.0) = "2.0"`).  The values formatted by the
program are rounded to one or two decimals, so 17 digits of fuel always
suffice; negative zero (a float-only artifact) is not modelled. -/
def fmtFloat (q : ℚ) : String :=
  let sign := if q < 0 then "-" else ""
  let a := |q|
  let ip := (ratFloor a).toNat
  let fr := a - (ratFloor a : ℚ)
  let ds := fracDigits 17 fr
  sign ++ toString ip ++ "." ++ (if ds.isEmpty then "0" else ⟨ds.map digitChar⟩)

/-- One line of the snapshot block
(`f"{i}. {name} {qty}{unit} | exp ~ {d}d | prio={p}"`, line 236). -/
def snapshot_line (i : ℕ) (it : RankedItem) : String :=
  toString i ++ ". " ++ it.item.name ++ " " ++ fmtFloat it.item.qty ++ it.item.unit
    ++ " | exp ~ " ++ fmtFloat (py_round it._days_left 1) ++ "d | prio="
    ++ fmtFloat (py_round it._priority 2)

/-- The `enumerate(ranked[:limit], start=i)` loop of `snapshot_block`. -/
def snapshot_lines_go (i : ℕ) : List RankedItem → List String
  | [] => []
  | it :: rest => snapshot_line i it :: snapshot_lines_go (i + 1) rest

/-- `snapshot_block` from `app_recipes.py` lines 232-237.  The limit is the
slice bound `ranked[:limit]`; the callers always pass the default 14
(negative Python slice indices are not modelled). -/
def snapshot_block (ranked : List RankedItem) (limit : ℕ) : String :=
  let lines := snapshot_lines_go 1 (ranked.take limit)
  if lines.isEmpty then "(empty)" else String.intercalate "\n" lines

/-- `build_ranked_block` from `gen_recipes_cli.py` lines 66-71, a textual
copy of `snapshot_block` (same enumerate loop, same f-string). -/
def build_ranked_block (ranked : List RankedItem) (limit : ℕ) : String :=
  let lines := snapshot_lines_go 1 (ranked.take limit)
  if lines.isEmpty then "(empty)" else String.intercalate "\n" lines

theorem snapshot_lines_go_eq (n : ℕ) (l : List RankedItem) :
    snapshot_lines_go n l =
      (List.enumFrom n l).map (fun p => snapshot_line p.1 p.2) := by
  induction l generalizing n with
  | nil => rfl
  | cons x xs ih =>
    simp only [snapshot_lines_go, List.enumFrom, List.map_cons, ih (n + 1)]

/-! ### Claim C4 -/

/-- C4 is FALSE as stated: with a non-empty ranked list and `limit = 0` the
code returns the placeholder `"(empty)"`, while the claim predicts one line
per item among the first 0 items, i.e. the empty string. -/
theorem c4_counterexample :
    snapshot_block [{ item := milkI, _days_left := 5, _priority := 1 }] 0 = "(empty)" ∧
    snapshot_block [{ item := milkI, _days_left := 5, _priority := 1 }] 0 ≠
      String.intercalate "\n"
        ((List.enumFrom 1 (([{ item := milkI, _days_left := 5, _priority := 1 }] :
            List RankedItem).take 0)).map (fun p => snapshot_line p.1 p.2)) := by
  constructor
  · rfl
  · intro h
    rw [show (([{ item := milkI, _days_left := 5, _priority := 1 }] :
        List RankedItem).take 0) = [] from rfl] at h
    simp only [List.enumFrom, List.map_nil, String.intercalate] at h
    exact absurd h (by decide)

/-- C4 (amended): `snapshot_block` is a pure function of the ranked list and
the limit; it returns the fixed placeholder whenever the truncation
`ranked[:limit]` is empty — for an empty ranked list, and also for
`limit = 0` with a non-empty list (the correction) — and otherwise returns
exactly one line per item among the first `limit` items, numbered from 1
(format `snapshot_line`: index, name, qty concatenated with unit, days-left
rounded to one decimal, priority rounded to two decimals), joined by
newlines. -/
theorem c4_snapshot_block_format (ranked : List RankedItem) (limit : ℕ) :
    (ranked = [] ∨ limit = 0 → snapshot_block ranked limit = "(empty)") ∧
    (ranked ≠ [] → limit ≠ 0 →
      snapshot_block ranked limit =
        String.intercalate "\n"
          ((List.enumFrom 1 (ranked.take limit)).map
            (fun p => snapshot_line p.1 p.2)) ∧
      ((List.enumFrom 1 (ranked.take limit)).map
        (fun p => snapshot_line p.1 p.2)).length = min limit ranked.length) := by
  constructor
  · rintro (rfl | rfl)
    · simp [snapshot_block, List.take_nil, snapshot_lines_go]
    · simp [snapshot_block, List.take, snapshot_lines_go]
  · intro hr hl
    obtain ⟨x, xs, rfl⟩ := List.exists_cons_of_ne_nil hr
    obtain ⟨k, rfl⟩ := Nat.exists_eq_succ_of_ne_zero hl
    constructor
    · rw [snapshot_block, ← snapshot_lines_go_eq, List.take_succ_cons]
      simp [snapshot_lines_go]
    · simp only [List.length_map, List.enumFrom_length, List.length_take,
        List.length_cons]

/-- Witness for C4 at a concrete run. -/
theorem c4_snapshot_block_format_witness :
    snapshot_block [{ item := milkI, _days_left := 5, _priority := 1 }] 1 =
      String.intercalate "\n"
        ((List.enumFrom 1 (([{ item := milkI, _days_left := 5, _priority := 1 }] :
            List RankedItem).take 1)).map (fun p => snapshot_line p.1 p.2)) :=
  ((c4_snapshot_block_format
      [{ item := milkI, _days_left := 5, _priority := 1 }] 1).2
    (List.cons_ne_nil _ _) (Nat.one_ne_zero)).1

/-! ### Claim C9 -/

/-- C9: the logic duplicated between the CLI and the interactive app
computes the same functions: `build_ranked_block` is extensionally equal to
`snapshot_block`, and the CLI `rank_ingredients` is extensionally equal to
the app `rank_ingredients` with all exclusion flags off and a non-vegan
selected diet. -/
theorem c9_cli_equals_app (now : ℚ) (items : List Ingredient) (d : String)
    (ranked : List RankedItem) (limit : ℕ) (hd : d ≠ "vegan") :
    rank_ingredients now items d false false false = cli_rank_ingredients now items ∧
    build_ranked_block ranked limit = snapshot_block ranked limit := by
  constructor
  · unfold rank_ingredients cli_rank_ingredients
    have hle : cli_rank_key_le = rank_key_le := rfl
    rw [hle]
    congr 1
    apply List.map_congr_left
    intro it _
    simp [rank_one, cli_rank_one, hd]
  · rfl

/-- Witness for C9 at a concrete run. -/
theorem c9_cli_equals_app_witness :
    rank_ingredients 0 [milkI] "veg" false false false =
      cli_rank_ingredients 0 [milkI] ∧
    build_ranked_block [] 14 = snapshot_block [] 14 :=
  c9_cli_equals_app 0 [milkI] "veg" [] 14 (by decide)

/-! ### apply_usage (app_recipes.py lines 143-170) -/

/-- One element of the `usage_items` list handed to `apply_usage`: a dict
whose keys may be missing (`dict.get` yields `None`). -/
structure UsageItem where
  name : Option String
  qty : Option ℚ
  unit : Option String
  deriving Repr, DecidableEq

/-- One element of the `updated` result list: `{"name","old_qty","new_qty"}`. -/
structure UsageUpdate where
  name : String
  old_qty : ℚ
  new_qty : ℚ
  deriving Repr, DecidableEq

/-- The result summary of `apply_usage` plus the final table state. -/
structure UsageResult where
  store : List Ingredient
  updated : List UsageUpdate
  missing : List String
  deriving Repr, DecidableEq

/-- `(it.get("name") or "").strip().lower()` (line 152): a missing key and
an empty string are both falsy. -/
def norm_name (it : UsageItem) : String :=
  lowerStr (pyStrip (it.name.getD ""))

/-- `float(it.get("qty") or 0)` (line 153). -/
def usage_qty (it : UsageItem) : ℚ :=
  it.qty.getD 0

/-- The normalized name of an item that passes the validity check of line
154, and `none` for a silently skipped item. -/
def valid_norm (it : UsageItem) : Option String :=
  if norm_name it = "" ∨ usage_qty it ≤ 0 then none else some (norm_name it)

/-- `apply_usage` from `app_recipes.py` lines 143-170, processing the items
left to right against the ingredients table.  The `SELECT ... one_or_none`
lookup is the filter on the stored name; two or more matching rows would
raise `MultipleResultsFound`, modelled by `none` (unreachable under the
unique-name key).  The `UPDATE ... WHERE id` is the map that rewrites the
quantity of the unique matching row. -/
def apply_usage (store : List Ingredient) : List UsageItem → Option UsageResult
  | [] => some { store := store, updated := [], missing := [] }
  | it :: rest =>
    let name := norm_name it
    let qty := usage_qty it
    if name = "" ∨ qty ≤ 0 then apply_usage store rest
    else
      match store.filter (fun g => g.name == name) with
      | [] =>
        (apply_usage store rest).map
          (fun r => { r with missing := name :: r.missing })
      | [row] =>
        let new_qty := max 0 (row.qty - qty)
        let store2 := store.map
          (fun g => if g.name == name then { g with qty := new_qty } else g)
        (apply_usage store2 rest).map
          (fun r => { r with updated := ⟨name, row.qty, new_qty⟩ :: r.updated })
      | _ :: _ :: _ => none

theorem apply_usage_nil (store : List Ingredient) :
    apply_usage store [] = some { store := store, updated := [], missing := [] } := rfl

theorem apply_usage_cons_invalid {it : UsageItem} (store : List Ingredient)
    (rest : List UsageItem) (hc : norm_name it = "" ∨ usage_qty it ≤ 0) :
    apply_usage store (it :: rest) = apply_usage store rest := by
  simp only [apply_usage, if_pos hc]

theorem apply_usage_cons_missing {it : UsageItem} (store : List Ingredient)
    (rest : List UsageItem) (hc : ¬ (norm_name it = "" ∨ usage_qty it ≤ 0))
    (hm : store.filter (fun g => g.name == norm_name it) = []) :
    apply_usage store (it :: rest) =
      (apply_usage store rest).map
        (fun r => { r with missing := norm_name it :: r.missing }) := by
  simp only [apply_usage, if_neg hc, hm]

theorem apply_usage_cons_found {it : UsageItem} {row : Ingredient}
    (store : List Ingredient) (rest : List UsageItem)
    (hc : ¬ (norm_name it = "" ∨ usage_qty it ≤ 0))
    (hm : store.filter (fun g => g.name == norm_name it) = [row]) :
    apply_usage store (it :: rest) =
      (apply_usage
          (store.map (fun g => if g.name == norm_name it then
            { g with qty := max 0 (row.qty - usage_qty it) } else g)) rest).map
        (fun r => { r with
          updated := ⟨norm_name it, row.qty, max 0 (row.qty - usage_qty it)⟩ ::
            r.updated }) := by
  simp only [apply_usage, if_neg hc, hm]

theorem apply_usage_cons_multi {it : UsageItem} {a b : Ingredient}
    {tl : List Ingredient} (store : List Ingredient) (rest : List UsageItem)
    (hc : ¬ (norm_name it = "" ∨ usage_qty it ≤ 0))
    (hm : store.filter (fun g => g.name == norm_name it) = a :: b :: tl) :
    apply_usage store (it :: rest) = none := by
  simp only [apply_usage, if_neg hc, hm]

/-- Frame relation between an original row and the corresponding final row:
all fields except the quantity are unchanged, and the row is entirely
unchanged unless its name is one of the given normalized names. -/
def frameR (ns : List String) (g gf : Ingredient) : Prop :=
  gf.name = g.name ∧ gf.unit = g.unit ∧ gf.category = g.category ∧
  gf.diet_type = g.diet_type ∧ gf.expires_on = g.expires_on ∧
  (g.name ∉ ns → gf = g)

theorem forall₂_compose {α : Type} {R S T : α → α → Prop}
    (h : ∀ x y z, R x y → S y z → T x z) :
    ∀ {a b c : List α}, List.Forall₂ R a b → List.Forall₂ S b c →
      List.Forall₂ T a c := by
  intro a b c hab
  induction hab generalizing c with
  | nil =>
    intro hbc
    cases hbc
    exact .nil
  | cons hxy _ ih =>
    intro hbc
    cases hbc with
    | cons hyz hrest => exact .cons (h _ _ _ hxy hyz) (ih hrest)

theorem frameR_mono {ns ns2 : List String} (hsub : ∀ x ∈ ns, x ∈ ns2)
    {g gf : Ingredient} (h : frameR ns g gf) : frameR ns2 g gf :=
  ⟨h.1, h.2.1, h.2.2.1, h.2.2.2.1, h.2.2.2.2.1,
    fun hn => h.2.2.2.2.2 (fun hmem => hn (hsub _ hmem))⟩

theorem frameR_compose {n : String} {ns : List String} {g g2 gf : Ingredient}
    (h1 : frameR [n] g g2) (h2 : frameR ns g2 gf) :
    frameR (n :: ns) g gf := by
  refine ⟨h2.1.trans h1.1, h2.2.1.trans h1.2.1, h2.2.2.1.trans h1.2.2.1,
    h2.2.2.2.1.trans h1.2.2.2.1, h2.2.2.2.2.1.trans h1.2.2.2.2.1, ?_⟩
  intro hn
  rw [List.mem_cons] at hn
  push_neg at hn
  have hg2 : g2 = g := h1.2.2.2.2.2 (by simp [hn.1])
  have : gf = g2 := h2.2.2.2.2.2 (by rw [hg2]; exact hn.2)
  rw [this, hg2]

/-- The single update step relates the store to its mapped image. -/
theorem frameR_update_step (store : List Ingredient) (n : String) (q : ℚ) :
    List.Forall₂ (frameR [n]) store
      (store.map (fun g => if g.name == n then { g with qty := q } else g)) := by
  induction store with
  | nil => exact .nil
  | cons g gs ih =>
    refine List.Forall₂.cons ?_ ih
    by_cases hg : g.name == n
    · simp only [hg, if_true]
      exact ⟨rfl, rfl, rfl, rfl, rfl, fun hn => absurd
        (by simpa using (List.mem_singleton.mpr (eq_of_beq hg))) hn⟩
    · simp only [hg, if_false]
      exact ⟨rfl, rfl, rfl, rfl, rfl, fun _ => rfl⟩

/-- Frame property of a whole `apply_usage` run: every row keeps all fields
except possibly the quantity, and rows whose name is targeted by no valid
usage item are completely unchanged. -/
theorem apply_usage_frame :
    ∀ (items : List UsageItem) (store : List Ingredient) (res : UsageResult),
    apply_usage store items = some res →
    List.Forall₂ (frameR (items.filterMap valid_norm)) store res.store := by
  intro items
  induction items with
  | nil =>
    intro store res h
    rw [apply_usage_nil, Option.some_inj] at h
    rw [← h]
    rw [List.forall₂_same]
    exact fun g _ => ⟨rfl, rfl, rfl, rfl, rfl, fun _ => rfl⟩
  | cons it rest ih =>
    intro store res h
    by_cases hc : norm_name it = "" ∨ usage_qty it ≤ 0
    · rw [apply_usage_cons_invalid store rest hc] at h
      have hval : valid_norm it = none := by simp [valid_norm, hc]
      rw [List.filterMap_cons, hval]
      exact ih store res h
    · have hval : valid_norm it = some (norm_name it) := by simp [valid_norm, hc]
      rw [List.filterMap_cons, hval]
      match hm : store.filter (fun g => g.name == norm_name it) with
      | [] =>
        rw [apply_usage_cons_missing store rest hc hm] at h
        obtain ⟨r2, hr2, hres⟩ := Option.map_eq_some'.mp h
        have := ih store r2 hr2
        rw [← hres]
        exact this.imp (fun a b hf =>
          frameR_mono (fun x hx => List.mem_cons_of_mem _ hx) hf)
      | [row] =>
        rw [apply_usage_cons_found store rest hc hm] at h
        obtain ⟨r2, hr2, hres⟩ := Option.map_eq_some'.mp h
        have hstep := frameR_update_step store (norm_name it)
          (max 0 (row.qty - usage_qty it))
        have htail := ih _ r2 hr2
        rw [← hres]
        exact forall₂_compose (R := frameR [norm_name it])
          (S := frameR (rest.filterMap valid_norm))
          (T := frameR (norm_name it :: rest.filterMap valid_norm))
          (fun x y z hxy hyz => frameR_compose hxy hyz) hstep htail
      | a :: b :: tl =>
        rw [apply_usage_cons_multi store rest hc hm] at h
        exact Option.noConfusion h

theorem forall₂_frame_names {ns : List String} :
    ∀ {l lf : List Ingredient}, List.Forall₂ (frameR ns) l lf →
    lf.map Ingredient.name = l.map Ingredient.name := by
  intro l lf h
  induction h with
  | nil => rfl
  | cons hx _ ih => simp [ih, hx.1]

theorem forall₂_frame_mem {ns : List String} :
    ∀ {l lf : List Ingredient}, List.Forall₂ (frameR ns) l lf →
    ∀ g ∈ l, g.name ∉ ns → g ∈ lf := by
  intro l lf h
  induction h with
  | nil => intro g hg _; cases hg
  | cons hx hrest ih =>
    intro g hg hn
    rcases List.mem_cons.mp hg with rfl | hg2
    · rw [List.mem_cons]
      left
      exact (hx.2.2.2.2.2 hn).symm
    · exact List.mem_cons_of_mem _ (ih g hg2 hn)

/-- Names of the store are invariant under the per-item update map. -/
theorem update_map_names (store : List Ingredient) (n : String) (q : ℚ) :
    (store.map (fun g => if g.name == n then { g with qty := q } else g)).map
      Ingredient.name = store.map Ingredient.name := by
  rw [List.map_map]
  apply List.map_congr_left
  intro g _
  simp only [Function.comp_apply]
  split <;> rfl

/-- Under distinct stored names, the lookup filter has at most one element. -/
theorem filter_name_length_le_one (store : List Ingredient) (n : String)
    (hnd : (store.map Ingredient.name).Nodup) :
    (store.filter (fun g => g.name == n)).length ≤ 1 := by
  have hcount := List.nodup_iff_count_le_one.mp hnd n
  rw [List.count, List.countP_map] at hcount
  rw [← List.countP_eq_length_filter]
  convert hcount using 2

/-- Under distinct stored names, a present name filters to exactly its row. -/
theorem filter_name_eq_singleton {store : List Ingredient} {row : Ingredient}
    {n : String} (hnd : (store.map Ingredient.name).Nodup)
    (hrow : row ∈ store) (hname : row.name = n) :
    store.filter (fun g => g.name == n) = [row] := by
  have hmem : row ∈ store.filter (fun g => g.name == n) :=
    List.mem_filter.mpr ⟨hrow, by simp [hname]⟩
  have hlen := filter_name_length_le_one store n hnd
  cases hm : store.filter (fun g => g.name == n) with
  | nil => rw [hm] at hmem; cases hmem
  | cons a tl =>
    cases tl with
    | nil =>
      rw [hm] at hmem
      rw [List.mem_singleton.mp hmem]
    | cons b tl2 =>
      rw [hm] at hlen
      simp at hlen

/-- `apply_usage` never aborts when the stored names are distinct (the
`one_or_none` query cannot raise under the unique-name key). -/
theorem apply_usage_total :
    ∀ (items : List UsageItem) (store : List Ingredient),
    (store.map Ingredient.name).Nodup →
    ∃ res, apply_usage store items = some res := by
  intro items
  induction items with
  | nil => exact fun store _ => ⟨_, apply_usage_nil store⟩
  | cons it rest ih =>
    intro store hnd
    by_cases hc : norm_name it = "" ∨ usage_qty it ≤ 0
    · rw [apply_usage_cons_invalid store rest hc]
      exact ih store hnd
    · cases hm : store.filter (fun g => g.name == norm_name it) with
      | nil =>
        obtain ⟨r, hr⟩ := ih store hnd
        exact ⟨_, by rw [apply_usage_cons_missing store rest hc hm, hr]; rfl⟩
      | cons a tl =>
        cases tl with
        | nil =>
          have hnd2 : ((store.map (fun g => if g.name == norm_name it then
              { g with qty := max 0 (a.qty - usage_qty it) } else g)).map
              Ingredient.name).Nodup := by
            rw [update_map_names]
            exact hnd
          obtain ⟨r, hr⟩ := ih _ hnd2
          exact ⟨_, by rw [apply_usage_cons_found store rest hc hm, hr]; rfl⟩
        | cons b tl2 =>
          have hlen := filter_name_length_le_one store (norm_name it) hnd
          rw [hm] at hlen
          simp at hlen

/-- The unit field of a usage item is never consulted: rewriting every unit
leaves the result of `apply_usage` unchanged. -/
theorem apply_usage_unit_inv :
    ∀ (items : List UsageItem) (store : List Ingredient) (u : Option String),
    apply_usage store (items.map (fun j => { j with unit := u })) =
      apply_usage store items := by
  intro items
  induction items with
  | nil => intro store u; rfl
  | cons it rest ih =>
    intro store u
    rw [List.map_cons]
    by_cases hc : norm_name it = "" ∨ usage_qty it ≤ 0
    · have hcu : norm_name { it with unit := u } = "" ∨
          usage_qty { it with unit := u } ≤ 0 := hc
      rw [apply_usage_cons_invalid store _ hcu, apply_usage_cons_invalid store rest hc]
      exact ih store u
    · have hcu : ¬ (norm_name { it with unit := u } = "" ∨
          usage_qty { it with unit := u } ≤ 0) := hc
      cases hm : store.filter (fun g => g.name == norm_name it) with
      | nil =>
        have hmu : store.filter
            (fun g => g.name == norm_name { it with unit := u }) = [] := hm
        rw [apply_usage_cons_missing store _ hcu hmu,
          apply_usage_cons_missing store rest hc hm, ih store u]
        rfl
      | cons a tl =>
        cases tl with
        | nil =>
          have hmu : store.filter
              (fun g => g.name == norm_name { it with unit := u }) = [a] := hm
          rw [apply_usage_cons_found store _ hcu hmu,
            apply_usage_cons_found store rest hc hm, ih _ u]
          rfl
        | cons b tl2 =>
          have hmu : store.filter
              (fun g => g.name == norm_name { it with unit := u }) =
                a :: b :: tl2 := hm
          rw [apply_usage_cons_multi store _ hcu hmu,
            apply_usage_cons_multi store rest hc hm]

/-- Every valid usage item whose normalized name is absent from the store
ends up in the missing list, and the batch keeps going. -/
theorem apply_usage_missing :
    ∀ (items : List UsageItem) (store : List Ingredient) (res : UsageResult),
    apply_usage store items = some res →
    ∀ it ∈ items, ∀ n, valid_norm it = some n →
    n ∉ store.map Ingredient.name → n ∈ res.missing := by
  intro items
  induction items with
  | nil =>
    intro store res h it hit
    cases hit
  | cons j rest ih =>
    intro store res h it hit n hv habs
    by_cases hcj : norm_name j = "" ∨ usage_qty j ≤ 0
    · rw [apply_usage_cons_invalid store rest hcj] at h
      rcases List.mem_cons.mp hit with rfl | hit2
      · simp [valid_norm, hcj] at hv
      · exact ih store res h it hit2 n hv habs
    · cases hm : store.filter (fun g => g.name == norm_name j) with
      | nil =>
        rw [apply_usage_cons_missing store rest hcj hm] at h
        obtain ⟨r2, hr2, hres⟩ := Option.map_eq_some'.mp h
        rw [← hres]
        rcases List.mem_cons.mp hit with rfl | hit2
        · have hn : n = norm_name it := by
            simp only [valid_norm, hcj, if_neg, if_false] at hv
            exact (Option.some_inj.mp hv).symm
          rw [hn]
          exact List.mem_cons_self _ _
        · exact List.mem_cons_of_mem _ (ih store r2 hr2 it hit2 n hv habs)
      | cons a tl =>
        cases tl with
        | nil =>
          rw [apply_usage_cons_found store rest hcj hm] at h
          obtain ⟨r2, hr2, hres⟩ := Option.map_eq_some'.mp h
          rcases List.mem_cons.mp hit with rfl | hit2
          · have hn : n = norm_name it := by
              simp only [valid_norm, hcj, if_neg, if_false] at hv
              exact (Option.some_inj.mp hv).symm
            have hmem : a ∈ store.filter (fun g => g.name == norm_name it) := by
              rw [hm]
              exact List.mem_singleton_self a
            have hfa := List.mem_filter.mp hmem
            refine absurd ?_ habs
            rw [hn]
            exact List.mem_map.mpr ⟨a, hfa.1, eq_of_beq hfa.2⟩
          · have habs2 : n ∉ ((store.map (fun g => if g.name == norm_name j then
                { g with qty := max 0 (a.qty - usage_qty j) } else g)).map
                Ingredient.name) := by
              rw [update_map_names]
              exact habs
            have hin := ih _ r2 hr2 it hit2 n hv habs2
            rw [← hres]
            exact hin
        | cons b tl2 =>
          rw [apply_usage_cons_multi store rest hcj hm] at h
          exact Option.noConfusion h

/-! ### Claim C6 -/

def tomatoRow : Ingredient :=
  { name := "tomato", qty := 5, unit := "pcs", category := some "veg",
    diet_type := some "veg", expires_on := none }

def useTomato : UsageItem :=
  { name := some "tomato", qty := some 2, unit := some "pcs" }

def saltUse : UsageItem :=
  { name := some "salt", qty := some 1, unit := some "tsp" }

/-- C6: under the unique-name key the batch always completes; every valid
item whose normalized name matches no stored ingredient is recorded in the
missing list; and every row whose name is targeted by no valid item is
unchanged in all fields (targeted rows change at most their quantity —
`frameR` keeps every field except `qty` equal unconditionally). -/
theorem c6_missing_and_frame (store : List Ingredient) (items : List UsageItem)
    (hnd : (store.map Ingredient.name).Nodup) :
    ∃ res, apply_usage store items = some res ∧
      (∀ it ∈ items, ∀ n, valid_norm it = some n →
        n ∉ store.map Ingredient.name → n ∈ res.missing) ∧
      List.Forall₂ (frameR (items.filterMap valid_norm)) store res.store := by
  obtain ⟨res, hres⟩ := apply_usage_total items store hnd
  exact ⟨res, hres,
    fun it hit n hv habs => apply_usage_missing items store res hres it hit n hv habs,
    apply_usage_frame items store res hres⟩

/-- Witness for C6 at a concrete run: one unknown name against a one-row store. -/
theorem c6_missing_and_frame_witness :
    ∃ res, apply_usage [tomatoRow] [saltUse] = some res ∧
      (∀ it ∈ [saltUse], ∀ n, valid_norm it = some n →
        n ∉ [tomatoRow].map Ingredient.name → n ∈ res.missing) ∧
      List.Forall₂ (frameR ([saltUse].filterMap valid_norm)) [tomatoRow] res.store :=
  c6_missing_and_frame [tomatoRow] [saltUse] (by simp)

/-! ### Claim C2 -/

/-- Core of C2: an item that is the unique valid occurrence of its
normalized name in the batch decrements the unique matching row from its
pre-call quantity, clamped at zero. -/
theorem apply_usage_unique_decrement :
    ∀ (items : List UsageItem) (store : List Ingredient) (it : UsageItem)
      (row : Ingredient),
    (store.map Ingredient.name).Nodup →
    items.filter (fun j => valid_norm j == some (norm_name it)) = [it] →
    row ∈ store → row.name = norm_name it →
    ∃ res, apply_usage store items = some res ∧
      { row with qty := max 0 (row.qty - usage_qty it) } ∈ res.store ∧
      (⟨norm_name it, row.qty, max 0 (row.qty - usage_qty it)⟩ : UsageUpdate)
        ∈ res.updated := by
  intro items
  induction items with
  | nil =>
    intro store it row hnd huniq hrow hname
    exact absurd huniq (by simp)
  | cons j rest ih =>
    intro store it row hnd huniq hrow hname
    rw [List.filter_cons] at huniq
    by_cases hpj : (valid_norm j == some (norm_name it)) = true
    · rw [if_pos hpj] at huniq
      obtain ⟨rfl, hrest⟩ := List.cons_eq_cons.mp huniq
      have hvj : valid_norm j = some (norm_name j) := beq_iff_eq.mp hpj
      have hc : ¬ (norm_name j = "" ∨ usage_qty j ≤ 0) := by
        intro h
        rw [valid_norm, if_pos h] at hvj
        exact Option.noConfusion hvj
      have hfil : store.filter (fun g => g.name == norm_name j) = [row] :=
        filter_name_eq_singleton hnd hrow hname
      rw [apply_usage_cons_found store rest hc hfil]
      have hnd2 : ((store.map (fun g => if g.name == norm_name j then
          { g with qty := max 0 (row.qty - usage_qty j) } else g)).map
          Ingredient.name).Nodup := by
        rw [update_map_names]
        exact hnd
      obtain ⟨r2, hr2⟩ := apply_usage_total rest _ hnd2
      have hframe := apply_usage_frame rest _ r2 hr2
      have hrow2 : { row with qty := max 0 (row.qty - usage_qty j) } ∈
          store.map (fun g => if g.name == norm_name j then
            { g with qty := max 0 (row.qty - usage_qty j) } else g) := by
        refine List.mem_map.mpr ⟨row, hrow, ?_⟩
        rw [if_pos (by simp [hname])]
      have hnotin : ({ row with qty := max 0 (row.qty - usage_qty j) } :
          Ingredient).name ∉ rest.filterMap valid_norm := by
        intro hn
        obtain ⟨j2, hj2, hvj2⟩ := List.mem_filterMap.mp hn
        have hj2mem : j2 ∈ rest.filter
            (fun j3 => valid_norm j3 == some (norm_name j)) := by
          refine List.mem_filter.mpr ⟨hj2, ?_⟩
          rw [hvj2]
          simp [hname]
        rw [hrest] at hj2mem
        cases hj2mem
      have hmem2 := forall₂_frame_mem hframe _ hrow2 hnotin
      refine ⟨{ r2 with updated :=
        ⟨norm_name j, row.qty, max 0 (row.qty - usage_qty j)⟩ :: r2.updated },
        by rw [hr2]; rfl, hmem2, List.mem_cons_self _ _⟩
    · rw [if_neg hpj] at huniq
      have hit : it ∈ rest := List.mem_of_mem_filter
        (huniq ▸ List.mem_singleton_self it)
      by_cases hcj : norm_name j = "" ∨ usage_qty j ≤ 0
      · rw [apply_usage_cons_invalid store rest hcj]
        exact ih store it row hnd huniq hrow hname
      · have hvj : valid_norm j = some (norm_name j) := by
          rw [valid_norm, if_neg hcj]
        have hne : norm_name j ≠ norm_name it := by
          intro he
          rw [hvj, he] at hpj
          simp at hpj
        cases hfj : store.filter (fun g => g.name == norm_name j) with
        | nil =>
          rw [apply_usage_cons_missing store rest hcj hfj]
          obtain ⟨res, hres, h1, h2⟩ := ih store it row hnd huniq hrow hname
          exact ⟨{ res with missing := norm_name j :: res.missing },
            by rw [hres]; rfl, h1, h2⟩
        | cons a tl =>
          cases tl with
          | nil =>
            rw [apply_usage_cons_found store rest hcj hfj]
            have hrow2 : row ∈ store.map (fun g => if g.name == norm_name j then
                { g with qty := max 0 (a.qty - usage_qty j) } else g) := by
              refine List.mem_map.mpr ⟨row, hrow, ?_⟩
              rw [if_neg (by simp [hname, Ne.symm hne])]
            have hnd2 : ((store.map (fun g => if g.name == norm_name j then
                { g with qty := max 0 (a.qty - usage_qty j) } else g)).map
                Ingredient.name).Nodup := by
              rw [update_map_names]
              exact hnd
            obtain ⟨res, hres, h1, h2⟩ := ih _ it row hnd2 huniq hrow2 hname
            exact ⟨{ res with updated :=
              ⟨norm_name j, a.qty, max 0 (a.qty - usage_qty j)⟩ :: res.updated },
              by rw [hres]; rfl, h1, List.mem_cons_of_mem _ h2⟩
          | cons b tl2 =>
            have hlen := filter_name_length_le_one store (norm_name j) hnd
            rw [hfj] at hlen
            simp at hlen

/-- C2 (amended): for a usage item whose trimmed lower-cased name matches a
stored ingredient, whose quantity is positive, and whose normalized name no
other valid item of the batch shares (the amendment forced by the
counterexample — with duplicated names, decrements compound sequentially),
the stored row after the call carries quantity max(0, old − requested) with
old the pre-call quantity, the recorded update is clamped at zero (never
negative), the item unit is never consulted, and items with empty
normalized name or non-positive quantity leave the computation exactly as
without them (no store change, no result entry). -/
theorem c2_apply_usage_decrement (store : List Ingredient)
    (items : List UsageItem) (it : UsageItem) (row : Ingredient)
    (u : Option String)
    (hnd : (store.map Ingredient.name).Nodup)
    (huniq : items.filter (fun j => valid_norm j == some (norm_name it)) = [it])
    (hrow : row ∈ store) (hname : row.name = norm_name it) :
    (∃ res, apply_usage store items = some res ∧
      { row with qty := max 0 (row.qty - usage_qty it) } ∈ res.store ∧
      (⟨norm_name it, row.qty, max 0 (row.qty - usage_qty it)⟩ : UsageUpdate)
        ∈ res.updated ∧
      0 ≤ max 0 (row.qty - usage_qty it)) ∧
    apply_usage store (items.map (fun j => { j with unit := u })) =
      apply_usage store items ∧
    (∀ (j : UsageItem) (tl : List UsageItem) (st : List Ingredient),
      norm_name j = "" ∨ usage_qty j ≤ 0 →
      apply_usage st (j :: tl) = apply_usage st tl) := by
  obtain ⟨res, h1, h2, h3⟩ :=
    apply_usage_unique_decrement items store it row hnd huniq hrow hname
  exact ⟨⟨res, h1, h2, h3, le_max_left 0 _⟩,
    apply_usage_unit_inv items store u,
    fun j tl st hc => apply_usage_cons_invalid st tl hc⟩

theorem norm_name_useTomato : norm_name useTomato = "tomato" := by decide

theorem valid_norm_useTomato : valid_norm useTomato = some "tomato" := by
  rw [valid_norm, if_neg, norm_name_useTomato]
  rw [norm_name_useTomato]
  push_neg
  refine ⟨by decide, ?_⟩
  norm_num [usage_qty, useTomato]

/-- Witness for C2 at a concrete run. -/
theorem c2_apply_usage_decrement_witness :
    (∃ res, apply_usage [tomatoRow] [useTomato] = some res ∧
      { tomatoRow with qty := max 0 (tomatoRow.qty - usage_qty useTomato) } ∈
        res.store ∧
      (⟨norm_name useTomato, tomatoRow.qty,
        max 0 (tomatoRow.qty - usage_qty useTomato)⟩ : UsageUpdate) ∈
        res.updated ∧
      0 ≤ max 0 (tomatoRow.qty - usage_qty useTomato)) ∧
    apply_usage [tomatoRow] ([useTomato].map (fun j => { j with unit := some "g" })) =
      apply_usage [tomatoRow] [useTomato] ∧
    (∀ (j : UsageItem) (tl : List UsageItem) (st : List Ingredient),
      norm_name j = "" ∨ usage_qty j ≤ 0 →
      apply_usage st (j :: tl) = apply_usage st tl) :=
  c2_apply_usage_decrement [tomatoRow] [useTomato] useTomato tomatoRow (some "g")
    (by simp)
    (by
      rw [List.filter_cons, if_pos]
      · rfl
      · rw [valid_norm_useTomato, norm_name_useTomato]
        rfl)
    (List.mem_singleton_self _)
    (by rw [norm_name_useTomato]; rfl)

/-- C2 is FALSE as stated for batches that repeat a name: applying the 2-unit
tomato usage twice against a 5-unit row leaves quantity 1 = max(0, max(0,
5−2) − 2), not max(0, old − requested) = 3 for the pre-call old quantity, so
"the stored quantity after the call equals max(0, old_qty − requested_qty)"
fails for either occurrence of the item. -/
theorem c2_counterexample :
    apply_usage [tomatoRow] [useTomato, useTomato] =
      some { store := [{ tomatoRow with qty := 1 }],
             updated := [⟨"tomato", 5, 3⟩, ⟨"tomato", 3, 1⟩],
             missing := [] } ∧
    ({ tomatoRow with qty := 1 } : Ingredient).qty ≠
      max 0 (tomatoRow.qty - usage_qty useTomato) := by
  have hq : usage_qty useTomato = 2 := rfl
  have hc : ¬ (norm_name useTomato = "" ∨ usage_qty useTomato ≤ 0) := by
    rw [norm_name_useTomato, hq]
    push_neg
    exact ⟨by decide, by norm_num⟩
  constructor
  · have hf1 : [tomatoRow].filter (fun g => g.name == norm_name useTomato) =
        [tomatoRow] := by
      rw [norm_name_useTomato]
      simp [tomatoRow]
    rw [apply_usage_cons_found _ _ hc hf1]
    have hstore2 : [tomatoRow].map (fun g => if g.name == norm_name useTomato then
        { g with qty := max 0 (tomatoRow.qty - usage_qty useTomato) } else g) =
        [{ tomatoRow with qty := 3 }] := by
      rw [norm_name_useTomato, hq, List.map_cons, List.map_nil,
        if_pos (by simp [tomatoRow])]
      have h3 : max (0 : ℚ) (tomatoRow.qty - 2) = 3 := by
        norm_num [tomatoRow]
      rw [h3]
    rw [hstore2]
    have hf2 : [{ tomatoRow with qty := 3 }].filter
        (fun g => g.name == norm_name useTomato) = [{ tomatoRow with qty := 3 }] := by
      rw [norm_name_useTomato]
      simp [tomatoRow]
    rw [apply_usage_cons_found _ _ hc hf2]
    have hstore3 : [{ tomatoRow with qty := 3 }].map
        (fun g => if g.name == norm_name useTomato then
          { g with qty := max 0 (({ tomatoRow with qty := 3 } : Ingredient).qty -
            usage_qty useTomato) } else g) = [{ tomatoRow with qty := 1 }] := by
      rw [norm_name_useTomato, hq, List.map_cons, List.map_nil,
        if_pos (by simp [tomatoRow])]
      have h1 : max (0 : ℚ) (({ tomatoRow with qty := 3 } : Ingredient).qty - 2) = 1 := by
        norm_num [tomatoRow]
      rw [h1]
    rw [hstore3, apply_usage_nil, Option.map_some', Option.map_some']
    rw [norm_name_useTomato, hq]
    have hold1 : tomatoRow.qty = 5 := rfl
    have hold2 : ({ tomatoRow with qty := 3 } : Ingredient).qty = 3 := rfl
    rw [hold1, hold2]
    have hm1 : max (0 : ℚ) (5 - 2) = 3 := by norm_num
    have hm2 : max (0 : ℚ) (3 - 2) = 1 := by norm_num
    rw [hm1, hm2]
  · rw [hq]
    have hold1 : tomatoRow.qty = 5 := rfl
    rw [hold1]
    have : ({ tomatoRow with qty := 1 } : Ingredient).qty = 1 := rfl
    rw [this]
    norm_num

/-- Witness for C8 at a concrete run: both expired items of the
counterexample share the maximal base 4. -/
theorem c8_expired_base_priority_witness :
    1 / max (rank_one exNow "veg" false false false appleI)._days_left (25/100) = 4 ∧
    1 / max (rank_one exNow "veg" false false false boxI)._days_left (25/100) = 4 ∧
    (∀ c ∈ rank_ingredients exNow [appleI, boxI] "veg" false false false,
      1 / max c._days_left (25/100) ≤ 4) :=
  c8_expired_base_priority exNow [appleI, boxI] "veg" false false false _ _
    (mem_rank_iff.mpr ⟨appleI, by simp, rfl⟩)
    (mem_rank_iff.mpr ⟨boxI, by simp, rfl⟩)
    ⟨"2024-01-01", 738886, rfl, by decide, by norm_num [exNow]⟩
    ⟨"2024-01-01", 738886, rfl, by decide, by norm_num [exNow]⟩

/-! ### JSON values and json.loads (used by parse_usage_from_markdown) -/

/-- A Python value as produced by `json.loads`: the JSON data types plus
the CPython extensions NaN / ±Infinity. -/
inductive PyJson where
  | null : PyJson
  | bool (b : Bool) : PyJson
  | num (q : ℚ) : PyJson
  | nan : PyJson
  | infinity (neg : Bool) : PyJson
  | str (s : String) : PyJson
  | arr (elems : List PyJson) : PyJson
  | obj (pairs : List (String × PyJson)) : PyJson

/-- JSON whitespace (space, tab, newline, carriage return). -/
def jsonWs (c : Char) : Bool :=
  c == ' ' || c == Char.ofNat 9 || c == Char.ofNat 10 || c == Char.ofNat 13

def skipJsonWs : List Char → List Char
  | [] => []
  | c :: cs => if jsonWs c then skipJsonWs cs else c :: cs

def hexVal (c : Char) : Option ℕ :=
  if '0' ≤ c ∧ c ≤ '9' then some (c.toNat - 48)
  else if 'a' ≤ c ∧ c ≤ 'f' then some (c.toNat - 87)
  else if 'A' ≤ c ∧ c ≤ 'F' then some (c.toNat - 55)
  else none

/-- Body of a JSON string after the opening quote: returns the decoded
characters and the input after the closing quote.  Strict mode: raw control
characters are rejected; `\uXXXX` escapes become the code point via
`Char.ofNat` (surrogate halves, which Lean `Char` cannot carry, degrade to
NUL — no program input exercises them). -/
def parseStrBody : ℕ → List Char → Option (List Char × List Char)
  | 0, _ => none
  | _ + 1, [] => none
  | fuel + 1, c :: cs =>
    if c = '"' then some ([], cs)
    else if c = '\\' then
      match cs with
      | [] => none
      | e :: cs2 =>
        if e = 'u' then
          match cs2 with
          | h1 :: h2 :: h3 :: h4 :: cs3 =>
            match hexVal h1, hexVal h2, hexVal h3, hexVal h4 with
            | some v1, some v2, some v3, some v4 =>
              (parseStrBody fuel cs3).map (fun p =>
                (Char.ofNat (((v1 * 16 + v2) * 16 + v3) * 16 + v4) :: p.1, p.2))
            | _, _, _, _ => none
          | _ => none
        else
          match (if e = '"' then some '"'
            else if e = '\\' then some '\\'
            else if e = '/' then some '/'
            else if e = 'b' then some (Char.ofNat 8)
            else if e = 'f' then some (Char.ofNat 12)
            else if e = 'n' then some (Char.ofNat 10)
            else if e = 'r' then some (Char.ofNat 13)
            else if e = 't' then some (Char.ofNat 9)
            else none) with
          | some d => (parseStrBody fuel cs2).map (fun p => (d :: p.1, p.2))
          | none => none
    else if c.toNat < 32 then none
    else (parseStrBody fuel cs).map (fun p => (c :: p.1, p.2))

def parseDigits (cs : List Char) : List Char × List Char :=
  (cs.takeWhile Char.isDigit, cs.dropWhile Char.isDigit)

/-- Exponent suffix of a JSON number (after the `e`/`E`); `orig` is the
input to fall back to when no digits follow, matching the number regex
`([eE][+-]?\d+)?`. -/
def expPart (base : ℚ) (orig r : List Char) : ℚ × List Char :=
  match r with
  | '+' :: r2 =>
    match parseDigits r2 with
    | ([], _) => (base, orig)
    | (eds, r3) => (base * (10 : ℚ) ^ digitsToNat eds, r3)
  | '-' :: r2 =>
    match parseDigits r2 with
    | ([], _) => (base, orig)
    | (eds, r3) => (base / (10 : ℚ) ^ digitsToNat eds, r3)
  | _ =>
    match parseDigits r with
    | ([], _) => (base, orig)
    | (eds, r3) => (base * (10 : ℚ) ^ digitsToNat eds, r3)

/-- A JSON number per the CPython scanner regex
`(-?(?:0|[1-9]\d*))(\.\d+)?([eE][-+]?\d+)?`: the integer part stops after a
leading zero, fraction and exponent are taken only when well formed, and
whatever follows is left for the caller. -/
def parseNumber (cs : List Char) : Option (ℚ × List Char) :=
  let (neg, cs1) := match cs with
    | '-' :: r => (true, r)
    | _ => (false, cs)
  match cs1 with
  | [] => none
  | c :: _ =>
    if c.isDigit then
      let (ids, cs2) := if c = '0' then ([c], cs1.tail) else parseDigits cs1
      let (base, cs3) : ℚ × List Char :=
        match cs2 with
        | '.' :: r =>
          match parseDigits r with
          | ([], _) => ((digitsToNat ids : ℚ), cs2)
          | (fds, r2) =>
            ((digitsToNat ids : ℚ) + (digitsToNat fds : ℚ) / (10 : ℚ) ^ fds.length,
              r2)
        | _ => ((digitsToNat ids : ℚ), cs2)
      let (val, cs4) : ℚ × List Char :=
        match cs3 with
        | 'e' :: r => expPart base cs3 r
        | 'E' :: r => expPart base cs3 r
        | _ => (base, cs3)
      some (if neg then -val else val, cs4)
    else none

def isPre : List Char → List Char → Bool
  | [], _ => true
  | _ :: _, [] => false
  | a :: as2, b :: bs => a == b && isPre as2 bs

mutual

/-- One JSON value, modelling the CPython scanner: containers, strings,
the literals `true`/`false`/`null`, the constants `NaN`/`Infinity`/
`-Infinity`, then numbers.  Fuel bounds the recursion depth. -/
def parseVal : ℕ → List Char → Option (PyJson × List Char)
  | 0, _ => none
  | fuel + 1, cs =>
    match cs with
    | [] => none
    | c :: rest =>
      if c = '{' then
        match skipJsonWs rest with
        | '}' :: r2 => some (.obj [], r2)
        | r2 => (parseObjItems fuel r2).map (fun p => (PyJson.obj p.1, p.2))
      else if c = '[' then
        match skipJsonWs rest with
        | ']' :: r2 => some (.arr [], r2)
        | r2 => (parseArrItems fuel r2).map (fun p => (PyJson.arr p.1, p.2))
      else if c = '"' then
        (parseStrBody fuel rest).map (fun p => (PyJson.str ⟨p.1⟩, p.2))
      else if isPre "true".data cs then some (.bool true, cs.drop 4)
      else if isPre "false".data cs then some (.bool false, cs.drop 5)
      else if isPre "null".data cs then some (.null, cs.drop 4)
      else if isPre "NaN".data cs then some (.nan, cs.drop 3)
      else if isPre "Infinity".data cs then some (.infinity false, cs.drop 8)
      else if isPre "-Infinity".data cs then some (.infinity true, cs.drop 9)
      else (parseNumber cs).map (fun p => (PyJson.num p.1, p.2))

/-- Elements of a non-empty JSON array after the opening bracket. -/
def parseArrItems : ℕ → List Char → Option (List PyJson × List Char)
  | 0, _ => none
  | fuel + 1, cs =>
    match parseVal fuel (skipJsonWs cs) with
    | none => none
    | some (v, rest) =>
      match skipJsonWs rest with
      | ',' :: r2 => (parseArrItems fuel r2).map (fun p => (v :: p.1, p.2))
      | ']' :: r2 => some ([v], r2)
      | _ => none

/-- Members of a non-empty JSON object after the opening brace. -/
def parseObjItems : ℕ → List Char → Option (List (String × PyJson) × List Char)
  | 0, _ => none
  | fuel + 1, cs =>
    match skipJsonWs cs with
    | '"' :: r1 =>
      match parseStrBody fuel r1 with
      | none => none
      | some (key, r2) =>
        match skipJsonWs r2 with
        | ':' :: r3 =>
          match parseVal fuel (skipJsonWs r3) with
          | none => none
          | some (v, r4) =>
            match skipJsonWs r4 with
            | ',' :: r5 =>
              (parseObjItems fuel r5).map (fun p => ((⟨key⟩, v) :: p.1, p.2))
            | '}' :: r5 => some ([(⟨key⟩, v)], r5)
            | _ => none
        | _ => none
    | _ => none

end

/-- `json.loads`: leading and trailing whitespace allowed, exactly one
value, otherwise (`Expecting value`, `Extra data`, ...) the call raises,
modelled by `none`.  The fuel bounds the recursion depth; every recursive
descent consumes input, so twice the length is always enough. -/
def json_loads (s : String) : Option PyJson :=
  match parseVal (2 * s.data.length + 8) (skipJsonWs s.data) with
  | some (v, rest) => if (skipJsonWs rest).isEmpty then some v else none
  | none => none

/-! ### parse_usage_from_markdown (app_recipes.py lines 172-188) -/

/-- The opening fence of the usage block, `(re.IGNORECASE)`-matched. -/
def fenceTag : List Char := "```usage_json".data

/-- Case-insensitive (ASCII) prefix test against the lowercase pattern. -/
def isPreCI : List Char → List Char → Bool
  | [], _ => true
  | _ :: _, [] => false
  | a :: as2, b :: bs => a == b.toLower && isPreCI as2 bs

/-- Text up to (excluding) the next closing fence, or `none` when the block
is never closed (the lazy group of `_USAGE_BLOCK_RE` must reach a final
triple backtick for the regex to match at all). -/
def takeUntilFence : List Char → Option (List Char)
  | [] => none
  | c :: cs =>
    if isPre "```".data (c :: cs) then some []
    else (takeUntilFence cs).map (fun l => c :: l)

/-- The text captured by `_USAGE_BLOCK_RE.search`: from the first opening
`(?i)```usage_json` fence that is eventually closed, up to the next triple
backtick.  The surrounding `\s*` of the pattern is subsumed by the
`.strip()` the caller applies to the captured group. -/
def findUsageBlock : List Char → Option (List Char)
  | [] => none
  | c :: cs =>
    if isPreCI fenceTag (c :: cs) then
      takeUntilFence ((c :: cs).drop fenceTag.length)
    else findUsageBlock cs

/-- `parse_usage_from_markdown` from `app_recipes.py` lines 177-188: the
argument is `md or ""` (so `None` and `""` behave alike); absence of the
block or a `json.loads` failure yields the empty list, and otherwise the
parsed value is returned as-is, with no shape validation. -/
def parse_usage_from_markdown (md : Option String) : PyJson :=
  match findUsageBlock (md.getD "").data with
  | none => PyJson.arr []
  | some body =>
    match json_loads (pyStrip ⟨body⟩) with
    | none => PyJson.arr []
    | some v => v

/-! ### Claim C5 -/

/-- C5: `parse_usage_from_markdown` is total (it is a Lean function — no
input, including a missing or empty markdown string, can make it raise),
and it returns the empty list whenever the markdown contains no closed
`usage_json` fenced block as well as whenever the block contents fail to
parse as JSON. -/
theorem c5_parse_usage_graceful (md : Option String) :
    (findUsageBlock (md.getD "").data = none →
      parse_usage_from_markdown md = PyJson.arr []) ∧
    (∀ body, findUsageBlock (md.getD "").data = some body →
      json_loads (pyStrip ⟨body⟩) = none →
      parse_usage_from_markdown md = PyJson.arr []) := by
  constructor
  · intro h
    simp only [parse_usage_from_markdown, h]
  · intro body h hj
    simp only [parse_usage_from_markdown, h, hj]

/-- Witness for C5 at concrete runs: markdown without a block, and a block
holding invalid JSON. -/
theorem c5_parse_usage_graceful_witness :
    parse_usage_from_markdown (some "no fenced block here") = PyJson.arr [] ∧
    parse_usage_from_markdown (some "```usage_json\nnot json\n```") =
      PyJson.arr [] :=
  ⟨(c5_parse_usage_graceful (some "no fenced block here")).1 (by rfl),
    (c5_parse_usage_graceful (some "```usage_json\nnot json\n```")).2
      "\nnot json\n".data (by rfl) (by rfl)⟩

/-! ### Claim C10 -/

/-- C10: no shape validation happens after JSON parsing: a `usage_json`
block containing the valid JSON document `null` makes the function return
the parsed value as-is, which is not a list of usage records (not an array
at all).  A block whose document is itself `[]` also yields the empty list,
through the success path rather than the error paths of C5. -/
theorem c10_no_shape_validation :
    parse_usage_from_markdown (some "```usage_json\nnull\n```") = PyJson.null ∧
    (∀ xs : List PyJson, PyJson.null ≠ PyJson.arr xs) :=
  ⟨by rfl, fun xs h => PyJson.noConfusion h⟩

/-! ### Claim C7: history is written iff the LLM call succeeds -/

/-- A row of `recipe_history` as written by `save_history`. -/
structure HistoryEntry where
  dietary : String
  time_limit : ℤ
  servings : ℤ
  cuisine : String
  num_options : ℤ
  ranked_snapshot : String
  result_markdown : String

/-- The persisted state a generation run can touch: the ingredients table
and the append-only history table. -/
structure AppState where
  store : List Ingredient
  history : List HistoryEntry

/-- The user-visible outcome of one generation run. -/
inductive GenOutcome where
  | emptyPantry : GenOutcome
  | llmError (e : String) : GenOutcome
  | success (md : String) : GenOutcome

/-- The `Generate Recipes` button handler (`app_recipes.py` lines 530-580):
empty pantry short-circuits with a warning; otherwise the snapshot is built
and the blocking LLM call runs inside `try`.  The call is the single
external effect and is modelled by its outcome `llm`; on failure the
`except` arm shows the error and touches no persisted state, on success
`save_history` appends one row and the markdown is rendered (the
usage-deduction expanders of the success branch mutate nothing during this
run — `apply_usage` fires only from a later button click). -/
def generate_click (st : AppState) (ranked : List RankedItem) (dietary : String)
    (time_limit servings : ℤ) (cuisine : String) (num_options : ℤ)
    (llm : Except String String) : AppState × GenOutcome :=
  if ranked.isEmpty then (st, .emptyPantry)
  else
    let snap := snapshot_block ranked 14
    match llm with
    | .error e => (st, .llmError e)
    | .ok md =>
      ({ st with history := st.history ++
          [⟨dietary, time_limit, servings, cuisine, num_options, snap, md⟩] },
        .success md)

/-- `main` of `gen_recipes_cli.py` (lines 147-197), after the engine is
obtained: empty pantry returns early; otherwise the ranked block is built
and the LLM call runs inside `try` — on failure only tips are printed, on
success the result is printed and `save_history` appends one row. -/
def cli_main (st : AppState) (now : ℚ) (dietary : String)
    (time_limit servings : ℤ) (cuisine : String) (num_options : ℤ)
    (llm : Except String String) : AppState × GenOutcome :=
  if st.store.isEmpty then (st, .emptyPantry)
  else
    let ranked := cli_rank_ingredients now st.store
    let block := build_ranked_block ranked 14
    match llm with
    | .error e => (st, .llmError e)
    | .ok md =>
      ({ st with history := st.history ++
          [⟨dietary, time_limit, servings, cuisine, num_options, block, md⟩] },
        .success md)

/-- C7: in both entry points a history entry is appended iff the LLM call
returns successfully: an LLM failure is caught, surfaces as the error
outcome, and leaves the whole persisted state untouched; a success appends
exactly one history row and never modifies the ingredient store; and any
run that changed the history was a successful one. -/
theorem c7_history_iff_llm_success (st : AppState) (ranked : List RankedItem)
    (dietary : String) (time_limit servings : ℤ) (cuisine : String)
    (num_options : ℤ) (now : ℚ) (llm : Except String String) :
    ((generate_click st ranked dietary time_limit servings cuisine num_options
        llm).1.store = st.store ∧
      (cli_main st now dietary time_limit servings cuisine num_options
        llm).1.store = st.store) ∧
    (∀ e, llm = .error e →
      (generate_click st ranked dietary time_limit servings cuisine num_options
        llm).1 = st ∧
      (cli_main st now dietary time_limit servings cuisine num_options llm).1 = st) ∧
    (∀ md, llm = .ok md →
      (ranked.isEmpty = false →
        (generate_click st ranked dietary time_limit servings cuisine num_options
            llm).1.history =
          st.history ++ [⟨dietary, time_limit, servings, cuisine, num_options,
            snapshot_block ranked 14, md⟩]) ∧
      (st.store.isEmpty = false →
        (cli_main st now dietary time_limit servings cuisine num_options
            llm).1.history =
          st.history ++ [⟨dietary, time_limit, servings, cuisine, num_options,
            build_ranked_block (cli_rank_ingredients now st.store) 14, md⟩])) ∧
    ((generate_click st ranked dietary time_limit servings cuisine num_options
        llm).1.history ≠ st.history → ∃ md, llm = .ok md) ∧
    ((cli_main st now dietary time_limit servings cuisine num_options
        llm).1.history ≠ st.history → ∃ md, llm = .ok md) := by
  refine ⟨⟨?_, ?_⟩, ?_, ?_, ?_, ?_⟩
  · unfold generate_click
    split
    · rfl
    · cases llm <;> rfl
  · unfold cli_main
    split
    · rfl
    · cases llm <;> rfl
  · rintro e rfl
    unfold generate_click cli_main
    constructor
    · split <;> rfl
    · split <;> rfl
  · rintro md rfl
    constructor
    · intro hne
      unfold generate_click
      rw [if_neg (by rw [hne]; exact Bool.false_ne_true)]
    · intro hne
      unfold cli_main
      rw [if_neg (by rw [hne]; exact Bool.false_ne_true)]
  · intro hch
    cases llm with
    | ok md => exact ⟨md, rfl⟩
    | error e =>
      exfalso
      apply hch
      unfold generate_click
      split
      · rfl
      · rfl
  · intro hch
    cases llm with
    | ok md => exact ⟨md, rfl⟩
    | error e =>
      exfalso
      apply hch
      unfold cli_main
      split
      · rfl
      · rfl

/-- Witness for C7 at a concrete run: a failing LLM call leaves the state
untouched in both entry points. -/
theorem c7_history_iff_llm_success_witness :
    (generate_click ⟨[tomatoRow], []⟩
        [{ item := tomatoRow, _days_left := 5, _priority := 1 }] "veg" 30 2
        "Indian" 2 (.error "connection refused")).1 = ⟨[tomatoRow], []⟩ ∧
    (cli_main ⟨[tomatoRow], []⟩ 0 "veg" 30 2 "Indian" 2
        (.error "connection refused")).1 = ⟨[tomatoRow], []⟩ :=
  (c7_history_iff_llm_success ⟨[tomatoRow], []⟩
      [{ item := tomatoRow, _days_left := 5, _priority := 1 }] "veg" 30 2
      "Indian" 2 0 (.error "connection refused")).2.1
    "connection refused" rfl
